import Mathlib

/-!
Verification of the garment line-balancing backend (`src/main.py`).

The core algorithm `true_thai_balancing` distributes a section's ordered
processes over a fixed number of operators ("water-flow" fill towards a
target cycle time), splitting processes across consecutive operators.
Durations are modelled exactly as rational numbers; the unbounded Python
`while` loop is modelled with an explicit fuel parameter, so a run of the
code that never terminates is a function that returns `none` for every
fuel value.
-/



namespace Garment

/-- The float tolerance `0.001` used throughout `true_thai_balancing`. -/
def eps : ℚ := 1 / 1000

/-- The two time bases: the `time_key` argument is `"smv"` or `"ct"`. -/
inductive TimeBasis where
  | smv : TimeBasis
  | ct : TimeBasis
deriving DecidableEq, Repr

/-- One process row as produced by `parse_excel_structure` (fields in the
order the Python dict is built: no, desc, flow, mc, smv, ct, part). -/
structure Process where
  no : Int
  desc : String
  flow : String
  mc : String
  smv : ℚ
  ct : ℚ
  part : String
deriving DecidableEq, Repr

/-- `proc[time_key]`: duration of a process under the selected basis. -/
def Process.timeOf (p : Process) : TimeBasis → ℚ
  | TimeBasis.smv => p.smv
  | TimeBasis.ct => p.ct

/-- One task fragment appended to an operator's `tasks` list. -/
structure Task where
  no : Int
  desc : String
  time : ℚ
  percentage : ℚ
deriving DecidableEq, Repr

/-- One operator record `{"op": i+1, "sec": 0.0, "tasks": []}`. -/
structure Operator where
  op : Nat
  sec : ℚ
  tasks : List Task
deriving DecidableEq, Repr

/-- Python `round` to an integer: round half to even (banker's rounding). -/
def roundHE (x : ℚ) : Int :=
  let f := ⌊x⌋
  let frac := x - f
  if frac < 1 / 2 then f
  else if 1 / 2 < frac then f + 1
  else if f % 2 = 0 then f else f + 1

/-- Python `round(x, d)`: round to `d` decimal digits, ties to even. -/
def pyround (d : Nat) (x : ℚ) : ℚ :=
  (roundHE (x * 10 ^ d) : ℚ) / 10 ^ d

/-- Python `max(l)` for a nonempty list, `0` for the empty list (matching
both `max(..., default=0)` and `max(l) if l else 0`). -/
def pymax (l : List ℚ) : ℚ :=
  match l with
  | [] => 0
  | x :: xs => xs.foldl max x

/-- `f"{q:.0f}"`: format a number rounded to zero decimals. -/
def fmt0 (q : ℚ) : String := toString (roundHE q)

/-- Build the task description string exactly as the code does:
`"No.<no>: <desc>"`, plus `" (<pct>%)"` when the percentage is below
`99.9`, plus `" - \"<part>\""` when a part name is present. -/
def taskDesc (p : Process) (percentage : ℚ) : String :=
  let partStr := if p.part ≠ "" then " - \"" ++ p.part ++ "\"" else ""
  let d := "No." ++ toString p.no ++ ": " ++ p.desc
  let d := if percentage < 999 / 10 then d ++ " (" ++ fmt0 percentage ++ "%)" else d
  d ++ partStr

/-- The inner `while remaining_proc_time > 0.001` loop of
`true_thai_balancing`, distributing one process starting at the cursor
`curIdx`.  `fuel` bounds the number of loop iterations; `none` means the
loop did not finish within `fuel` iterations.  Returns the cursor and the
updated operator list. -/
def placeLoop (n : Nat) (targetCt : ℚ) (proc : Process) (basis : TimeBasis) :
    Nat → ℚ → Nat → List Operator → Option (Nat × List Operator)
  | 0, _, _, _ => none
  | fuel + 1, remaining, curIdx, ops =>
    if eps < remaining then
      -- Safety: if we run out of operators, clamp to the last one
      let idx := if n ≤ curIdx then n - 1 else curIdx
      let currentOp := ops.getD idx ⟨0, 0, []⟩
      let spaceLeft := targetCt - currentOp.sec
      if spaceLeft ≤ eps then
        -- operator already full: move to the next and retry
        placeLoop n targetCt proc basis fuel remaining (idx + 1) ops
      else
        let takeTime := min remaining spaceLeft
        let originalTime := proc.timeOf basis
        let percentage := if 0 < originalTime then takeTime / originalTime * 100 else 0
        let task : Task := ⟨proc.no, taskDesc proc percentage, takeTime, percentage⟩
        let ops' := ops.set idx
          { currentOp with sec := currentOp.sec + takeTime, tasks := currentOp.tasks ++ [task] }
        let remaining' := remaining - takeTime
        if eps < remaining' then
          placeLoop n targetCt proc basis fuel remaining' (idx + 1) ops'
        else
          some (idx, ops')
    else
      some (curIdx, ops)

/-- The outer `for proc in processes` loop: place each process in turn,
carrying the cursor forward across process boundaries. -/
def allocLoop (n : Nat) (targetCt : ℚ) (basis : TimeBasis) (fuel : Nat) :
    List Process → Nat → List Operator → Option (List Operator)
  | [], _, ops => some ops
  | proc :: rest, curIdx, ops =>
    match placeLoop n targetCt proc basis fuel (proc.timeOf basis) curIdx ops with
    | none => none
    | some (curIdx', ops') => allocLoop n targetCt basis fuel rest curIdx' ops'

/-- `true_thai_balancing(processes, num_operators, time_key)` from
`src/main.py`.  `fuel` bounds each process's while loop; a `none` result
means some while loop ran longer than `fuel` iterations (for every fuel:
the Python code never terminates). -/
def true_thai_balancing (fuel : Nat) (processes : List Process)
    (numOperators : Int) (basis : TimeBasis) : Option (List Operator) :=
  if numOperators ≤ 0 then some []
  else
    let n := numOperators.toNat
    let totalTime := (processes.map (fun p => p.timeOf basis)).sum
    let targetCt := totalTime / (n : ℚ)
    let operators := (List.range n).map (fun i => ⟨i + 1, 0, []⟩)
    allocLoop n targetCt basis fuel processes 0 operators

/-- One entry of the `results_list` built per section by `/balance`
(the fields the verified claims are about; display-only color fields and
the `"Op i"` label re-formatting, which copy `sec` unchanged, are not
re-modelled). -/
structure SectionResult where
  total_time_used : ℚ
  operators : List Operator
  section_bn : ℚ
  sec_output : ℚ
  sec_eff_smv : ℚ
  sec_eff_ct : ℚ
  num_ops : Int
deriving DecidableEq, Repr

/-- The per-section computation of `balance_dynamic` (steps 1-4 of the
section loop): balance under the selected mode, then bottleneck, output
rate and the two efficiencies.  `none` propagates a non-terminating
allocation. -/
def sectionResult (fuel : Nat) (procs : List Process) (numOps : Int)
    (mode : TimeBasis) : Option SectionResult :=
  match true_thai_balancing fuel procs numOps mode with
  | none => none
  | some balancedOps =>
    let secTotalSmv := (procs.map (fun p => p.smv)).sum
    let secTotalCt := (procs.map (fun p => p.ct)).sum
    let secBn := pymax (balancedOps.map (fun o => o.sec))
    let denom := secBn * (numOps : ℚ)
    some { total_time_used := pyround 2 ((procs.map (fun p => p.timeOf mode)).sum)
           operators := balancedOps
           section_bn := secBn
           sec_output := if 0 < secBn then pyround 0 (3600 / secBn) else 0
           sec_eff_smv := if 0 < denom then pyround 1 (secTotalSmv * 100 / denom) else 0
           sec_eff_ct := if 0 < denom then pyround 1 (secTotalCt * 100 / denom) else 0
           num_ops := numOps }

/-- `int(config.get(sec_name, 1))`: operator count for a section, 1 when
the section is absent from the configuration. -/
def configGet (config : List (String × Int)) (name : String) : Int :=
  match config.find? (fun kv => kv.1 == name) with
  | some kv => kv.2
  | none => 1

/-- The `for sec_name, procs in sections_data.items()` loop of
`balance_dynamic`, accumulating `results_list` in order. -/
def buildResults (fuel : Nat) (config : List (String × Int)) (mode : TimeBasis) :
    List (String × List Process) → Option (List (String × SectionResult))
  | [] => some []
  | (nm, procs) :: rest =>
    match sectionResult fuel procs (configGet config nm) mode with
    | none => none
    | some r =>
      match buildResults fuel config mode rest with
      | none => none
      | some rs => some ((nm, r) :: rs)

/-- The cycle times gathered for the line-balance percentage: walk the
selected section names (all section names when the selection is empty),
look each one up in `results_list`, and take
`total_time_used / num_ops` (0 when `num_ops ≤ 0`), skipping names with
no matching result. -/
def cycleTimesOf (sections : List (String × List Process)) (selected : List String)
    (results : List (String × SectionResult)) : List ℚ :=
  let sel := if selected = [] then sections.map (fun s => s.1) else selected
  sel.filterMap fun nm =>
    (results.find? (fun r => r.1 == nm)).map fun r =>
      if 0 < r.2.num_ops then r.2.total_time_used / (r.2.num_ops : ℚ) else 0

/-- The `%` line-balance computation of `balance_dynamic` (given the
already-built `results_list`):
`round(sum(cycle_times)*100/(max*count), 2) if denom > 0 else 0`,
and 0 when no cycle times were gathered. -/
def lineBalanceOf (sections : List (String × List Process)) (selected : List String)
    (results : List (String × SectionResult)) : ℚ :=
  let cts := cycleTimesOf sections selected results
  if cts = [] then 0
  else
    let denom := pymax cts * (cts.length : ℚ)
    if 0 < denom then pyround 2 (cts.sum * 100 / denom) else 0

/-- End-to-end line-balance percentage of a `/balance` request. -/
def lineBalanceEff (fuel : Nat) (sections : List (String × List Process))
    (config : List (String × Int)) (mode : TimeBasis) (selected : List String) :
    Option ℚ :=
  match buildResults fuel config mode sections with
  | none => none
  | some results => some (lineBalanceOf sections selected results)

/-- Does the character list `pat` begin the character list `s`? -/
def startsWithPat : List Char → List Char → Bool
  | [], _ => true
  | _ :: _, [] => false
  | p :: ps, c :: cs => p = c && startsWithPat ps cs

/-- Does `pat` occur as a contiguous substring of `s`? -/
def hasSubPat (pat : List Char) : List Char → Bool
  | [] => startsWithPat pat []
  | c :: cs => startsWithPat pat (c :: cs) || hasSubPat pat cs

/-- Python `"ass" in s.lower()`. -/
def containsAss (s : String) : Bool :=
  hasSubPat "ass".data (s.data.map Char.toLower)

/-- The low-line-balance warning string. -/
def lowBalanceMsg (lb : ℚ) : String :=
  "⚠️ Line Balance is low (" ++ toString lb ++ "%). Consider combining processes."

/-- The excellent-line-balance note string. -/
def excellentMsg (lb : ℚ) : String :=
  "✅ Excellent Line Balance (" ++ toString lb ++ "%)."

/-- The critical-bottleneck note string. -/
def bottleneckMsg (bn : ℚ) (loc : String) : String :=
  "🛑 Critical Bottleneck: " ++ toString bn ++ "s in " ++ loc ++ "."

/-- The assembly action hint string. -/
def assemblyMsg : String := "👉 Action: Check Assembly machines."

/-- The `--- AI Suggestion ---` block of `balance_dynamic`: builds the
suggestion list from the line-balance percentage, the global bottleneck
and the per-section `(name, section_bn)` pairs.  (Number-to-text
rendering is abstracted as `toString` on exact rationals.) -/
def suggestionsOf (lb bn : ℚ) (results : List (String × ℚ)) : List String :=
  (if lb < 60 then [lowBalanceMsg lb]
   else if 90 < lb then [excellentMsg lb]
   else [])
  ++ (if 0 < bn then
        let bnSecs := (results.filter (fun r => r.2 == bn)).map (fun r => r.1)
        let locStr := String.intercalate " & " bnSecs
        [bottleneckMsg bn locStr]
        ++ (if bnSecs.any containsAss then [assemblyMsg] else [])
      else [])

/-- The accumulated `sec` of every operator across all sections, in
order (`all_ops_for_stats`). -/
def allOperatorSecs (results : List (String × SectionResult)) : List ℚ :=
  ((results.map (fun r => r.2.operators)).flatten).map (fun o => o.sec)

/-- Global analytics and suggestions of a `/balance` request: the
line bottleneck is `max(t for t in all operator secs if t > 0, else 0)`,
and the suggestion block runs on the line balance percentage, the
bottleneck, and the per-section bottlenecks. -/
def globalSuggestions (fuel : Nat) (sections : List (String × List Process))
    (config : List (String × Int)) (mode : TimeBasis) (selected : List String) :
    Option (List String) :=
  match buildResults fuel config mode sections with
  | none => none
  | some results =>
    let allTimes := (allOperatorSecs results).filter (fun s => decide (0 < s))
    let lineBn := pymax allTimes
    let lb := lineBalanceOf sections selected results
    some (suggestionsOf lb lineBn (results.map fun r => (r.1, r.2.section_bn)))

/-- Total time of the task fragments labelled with process number `no`
inside one operator. -/
def opFragFor (no : Int) (o : Operator) : ℚ :=
  ((o.tasks.filter (fun t => t.no == no)).map (fun t => t.time)).sum

/-- Total time of the task fragments labelled `no` across a whole
operator list. -/
def fragmentsTotal (no : Int) (ops : List Operator) : ℚ :=
  (ops.map (opFragFor no)).sum

/-- Modelled from the spec wording of the efficiency formula:
`round(total * 100 / (bottleneck * operator_count), 1)`, 0 when the
denominator is not positive. -/
def spec_efficiency (total bn : ℚ) (numOps : Int) : ℚ :=
  if 0 < bn * (numOps : ℚ) then pyround 1 (total * 100 / (bn * (numOps : ℚ))) else 0

/-- Modelled from the spec wording of the line-balance formula over the
gathered cycle times: 0 when none were gathered or their maximum is 0,
otherwise `round(sum * 100 / (max * count), 2)`. -/
def spec_lineBalance (cts : List ℚ) : ℚ :=
  if cts = [] then 0
  else if pymax cts = 0 then 0
  else pyround 2 (cts.sum * 100 / (pymax cts * (cts.length : ℚ)))

/-- C1 failing input: smv durations [9.999, 9.999, 10.002]. -/
def procsC1 : List Process :=
  [⟨1, "a", "", "", 9999/1000, 0, ""⟩, ⟨2, "b", "", "", 9999/1000, 0, ""⟩,
   ⟨3, "c", "", "", 10002/1000, 0, ""⟩]

/-- Fresh operator list for 3 operators. -/
def initOps3 : List Operator := [⟨1, 0, []⟩, ⟨2, 0, []⟩, ⟨3, 0, []⟩]

/-- State after placing process 1 of `procsC1`. -/
def opsC1a : List Operator :=
  [⟨1, 9999/1000, [⟨1, "No.1: a", 9999/1000, 100⟩]⟩, ⟨2, 0, []⟩, ⟨3, 0, []⟩]

/-- State after placing process 2 of `procsC1`. -/
def opsC1b : List Operator :=
  [⟨1, 9999/1000, [⟨1, "No.1: a", 9999/1000, 100⟩]⟩,
   ⟨2, 9999/1000, [⟨2, "No.2: b", 9999/1000, 100⟩]⟩, ⟨3, 0, []⟩]

/-- C2 failing input: smv durations [39.999, 39.999, 40.002] (the same
run in the source's binary64 arithmetic: the total ties to exactly 120.0,
the target to 40.0, and 40.0 minus the double nearest 39.999 is below
0.001, so the skip branch fires there just as it does here). -/
def procsC2 : List Process :=
  [⟨1, "cut", "", "", 39999/1000, 0, ""⟩, ⟨2, "sew", "", "", 39999/1000, 0, ""⟩,
   ⟨3, "pack", "", "", 40002/1000, 0, ""⟩]

/-- State after placing process 1 of `procsC2`. -/
def opsC2a : List Operator :=
  [⟨1, 39999/1000, [⟨1, "No.1: cut", 39999/1000, 100⟩]⟩, ⟨2, 0, []⟩, ⟨3, 0, []⟩]

/-- State after placing process 2 of `procsC2`. -/
def opsC2b : List Operator :=
  [⟨1, 39999/1000, [⟨1, "No.1: cut", 39999/1000, 100⟩]⟩,
   ⟨2, 39999/1000, [⟨2, "No.2: sew", 39999/1000, 100⟩]⟩, ⟨3, 0, []⟩]

/-- The spec scenario input: smv durations [40, 30, 20]. -/
def procsC4 : List Process :=
  [⟨1, "a", "", "", 40, 0, ""⟩, ⟨2, "b", "", "", 30, 0, ""⟩, ⟨3, "c", "", "", 20, 0, ""⟩]

/-- Fresh operator list for 2 operators. -/
def initOps2 : List Operator := [⟨1, 0, []⟩, ⟨2, 0, []⟩]

/-- State after placing process 1 of `procsC4`. -/
def opsC4a : List Operator := [⟨1, 40, [⟨1, "No.1: a", 40, 100⟩]⟩, ⟨2, 0, []⟩]

/-- State after placing process 2 of `procsC4`. -/
def opsC4b : List Operator :=
  [⟨1, 45, [⟨1, "No.1: a", 40, 100⟩, ⟨2, "No.2: b (17%)", 5, 50/3⟩]⟩,
   ⟨2, 25, [⟨2, "No.2: b (83%)", 25, 250/3⟩]⟩]

/-- The full expected allocation for the spec scenario. -/
def opsC4 : List Operator :=
  [⟨1, 45, [⟨1, "No.1: a", 40, 100⟩, ⟨2, "No.2: b (17%)", 5, 50/3⟩]⟩,
   ⟨2, 45, [⟨2, "No.2: b (83%)", 25, 250/3⟩, ⟨3, "No.3: c", 20, 100⟩]⟩]

/-- A 45-second process for the two-section scenario. -/
def procA : Process := ⟨1, "a", "", "", 45, 0, ""⟩

/-- A 20-second process for the two-section scenario. -/
def procB : Process := ⟨2, "b", "", "", 20, 0, ""⟩

/-- Two-section request: section A holds `procA`, section B holds `procB`. -/
def sectionsW : List (String × List Process) := [("A", [procA]), ("B", [procB])]

/-- Allocation of section A. -/
def opsWA : List Operator := [⟨1, 45, [⟨1, "No.1: a", 45, 100⟩]⟩]

/-- Allocation of section B. -/
def opsWB : List Operator := [⟨1, 20, [⟨2, "No.2: b", 20, 100⟩]⟩]

/-- Section metrics of section A. -/
def rWA : SectionResult := ⟨45, opsWA, 45, 80, 100, 0, 1⟩

/-- Section metrics of section B. -/
def rWB : SectionResult := ⟨20, opsWB, 20, 180, 100, 0, 1⟩

/-- The `results_list` of the two-section request. -/
def resultsW : List (String × SectionResult) := [("A", rWA), ("B", rWB)]

/-- A one-process section for the operator-count claims. -/
def procsC9 : List Process := [⟨1, "a", "", "", 40, 0, ""⟩]

/-- Conservation witness input: durations [2, 3]. -/
def procsW3 : List Process := [⟨1, "a", "", "", 2, 0, ""⟩, ⟨2, "b", "", "", 3, 0, ""⟩]

/-- Allocation of `procsW3` on one operator. -/
def outW3 : List Operator :=
  [⟨1, 5, [⟨1, "No.1: a", 2, 100⟩, ⟨2, "No.2: b", 3, 100⟩]⟩]

/-- A 0.0005-second process followed by a 5-second one. -/
def procsW10 : List Process :=
  [⟨1, "t", "", "", 1/2000, 0, ""⟩, ⟨2, "u", "", "", 5, 0, ""⟩]

/-- Allocation of `procsW10`: the tiny process left no fragment. -/
def outW10 : List Operator := [⟨1, 5, [⟨2, "No.2: u", 5, 100⟩]⟩]

lemma map_sum_set (g : Operator → ℚ) :
    ∀ (ops : List Operator) (i : Nat) (a : Operator), i < ops.length →
      ((ops.set i a).map g).sum
        = (ops.map g).sum + g a - g (ops.getD i ⟨0, 0, []⟩)
  | [], i, a, h => absurd h (by simp)
  | o :: os, 0, a, _ => by simp [List.set]; ring
  | o :: os, i + 1, a, h => by
    simp only [List.set, List.map_cons, List.sum_cons, List.getD_cons_succ]
    rw [map_sum_set g os i a (by simpa using h)]
    ring

lemma placeLoop_len (n : Nat) (t : ℚ) (p : Process) (b : TimeBasis) :
    ∀ (f : Nat) (r : ℚ) (c : Nat) (ops : List Operator) (c' : Nat) (ops' : List Operator),
      placeLoop n t p b f r c ops = some (c', ops') → ops'.length = ops.length := by
  intro f
  induction f with
  | zero => intro r c ops c' ops' h; exact absurd h (by simp [placeLoop])
  | succ f ih =>
    intro r c ops c' ops' h
    rw [placeLoop] at h
    dsimp only at h
    split at h
    all_goals try split at h
    all_goals try split at h
    all_goals try split at h
    all_goals first
      | (rw [ih _ _ _ _ _ h]; try simp)
      | (simp only [Option.some.injEq, Prod.mk.injEq] at h
         obtain ⟨h1, h2⟩ := h
         subst h2
         try rfl
         try simp)

lemma opFragFor_append (m : Int) (opv : Nat) (sec' : ℚ) (ts : List Task) (tk : Task) :
    opFragFor m ⟨opv, sec', ts ++ [tk]⟩
      = opFragFor m ⟨opv, 0, ts⟩ + (if tk.no == m then tk.time else 0) := by
  simp only [opFragFor, List.filter_append]
  rw [List.map_append, List.sum_append]
  congr 1
  simp only [List.filter]
  split <;> simp_all

lemma fragmentsTotal_set (m : Int) (ops : List Operator) (idx : Nat)
    (hidx : idx < ops.length) (newOp : Operator) :
    fragmentsTotal m (ops.set idx newOp)
      = fragmentsTotal m ops + opFragFor m newOp - opFragFor m (ops.getD idx ⟨0, 0, []⟩) :=
  map_sum_set _ _ _ _ hidx

lemma opFragFor_sec_irrel (m : Int) (opv opv' : Nat) (s1 s2 : ℚ) (ts : List Task) :
    opFragFor m ⟨opv, s1, ts⟩ = opFragFor m ⟨opv', s2, ts⟩ := rfl

lemma placeLoop_conserve (n : Nat) (t : ℚ) (p : Process) (b : TimeBasis) (hn : 0 < n) :
    ∀ (f : Nat) (r : ℚ) (c : Nat) (ops : List Operator) (c' : Nat) (ops' : List Operator),
      0 ≤ r → n ≤ ops.length →
      placeLoop n t p b f r c ops = some (c', ops') →
      (∃ rOut, 0 ≤ rOut ∧ rOut ≤ eps ∧
        fragmentsTotal p.no ops' = fragmentsTotal p.no ops + r - rOut) ∧
      (∀ m : Int, m ≠ p.no → fragmentsTotal m ops' = fragmentsTotal m ops) := by
  intro f
  induction f with
  | zero => intro r c ops c' ops' _ _ h; exact absurd h (by simp [placeLoop])
  | succ f ih =>
    intro r c ops c' ops' hr hlen h
    rw [placeLoop] at h
    dsimp only at h
    by_cases hcond : eps < r
    · rw [if_pos hcond] at h
      generalize hidx : (if n ≤ c then n - 1 else c) = idx at h
      have hidxlt : idx < ops.length := by
        rw [← hidx]; split <;> omega
      split at h
      · -- operator full: skip to the next, state unchanged
        exact ih _ _ _ _ _ hr hlen h
      · -- take branch
        rename_i hspace
        set old := ops.getD idx (⟨0, 0, []⟩ : Operator) with hold
        set take := r ⊓ (t - old.sec) with htake
        have htake_le : take ≤ r := min_le_left _ _
        have hfrag : ∀ m : Int, fragmentsTotal m
            (ops.set idx { op := old.op, sec := old.sec + take,
                           tasks := old.tasks ++
                             [{ no := p.no,
                                desc := taskDesc p
                                  (if 0 < p.timeOf b then take / p.timeOf b * 100 else 0),
                                time := take,
                                percentage :=
                                  if 0 < p.timeOf b then take / p.timeOf b * 100 else 0 }] })
            = fragmentsTotal m ops + (if p.no == m then take else 0) := by
          intro m
          rw [fragmentsTotal_set m ops idx hidxlt]
          rw [opFragFor_append]
          rw [opFragFor_sec_irrel m old.op old.op 0 old.sec old.tasks]
          rw [show (⟨old.op, old.sec, old.tasks⟩ : Operator) = old from rfl]
          ring
        split at h
        · -- still work left: recurse on the next operator
          obtain ⟨⟨rOut, h0, h1, heq⟩, hothers⟩ :=
            ih _ _ _ _ _ (by linarith) (by simpa using hlen) h
          constructor
          · refine ⟨rOut, h0, h1, ?_⟩
            rw [heq, hfrag p.no]
            simp only [beq_self_eq_true, if_true]
            ring
          · intro m hm
            have hb : (p.no == m) = false := beq_eq_false_iff_ne.mpr (Ne.symm hm)
            rw [hothers m hm, hfrag m, hb]
            simp
        · -- process finished: loop exits with the updated operators
          rename_i hrem
          simp only [Option.some.injEq, Prod.mk.injEq] at h
          obtain ⟨h1, h2⟩ := h
          subst h2
          constructor
          · refine ⟨r - take, by linarith, by linarith [not_lt.mp hrem], ?_⟩
            rw [hfrag p.no]
            simp only [beq_self_eq_true, if_true]
            ring
          · intro m hm
            have hb : (p.no == m) = false := beq_eq_false_iff_ne.mpr (Ne.symm hm)
            rw [hfrag m, hb]
            simp
    · rw [if_neg hcond] at h
      simp only [Option.some.injEq, Prod.mk.injEq] at h
      obtain ⟨h1, h2⟩ := h
      subst h2
      exact ⟨⟨r, hr, not_lt.mp hcond, by ring⟩, fun m _ => rfl⟩

lemma allocLoop_conserve (n : Nat) (t : ℚ) (b : TimeBasis) (fuel : Nat) (hn : 0 < n) :
    ∀ (procs : List Process) (c : Nat) (ops : List Operator) (out : List Operator),
      (∀ q ∈ procs, 0 ≤ q.timeOf b) → n ≤ ops.length →
      allocLoop n t b fuel procs c ops = some out →
      (∀ m : Int, (∀ q ∈ procs, q.no ≠ m) → fragmentsTotal m out = fragmentsTotal m ops) ∧
      ((procs.map (fun q => q.no)).Nodup →
        ∀ q ∈ procs, ∃ rOut, 0 ≤ rOut ∧ rOut ≤ eps ∧
          fragmentsTotal q.no out = fragmentsTotal q.no ops + q.timeOf b - rOut) := by
  intro procs
  induction procs with
  | nil =>
    intro c ops out _ _ h
    simp only [allocLoop, Option.some.injEq] at h
    subst h
    exact ⟨fun m _ => rfl, fun _ q hq => absurd hq (List.not_mem_nil q)⟩
  | cons p rest ihp =>
    intro c ops out hpos hlen h
    rw [allocLoop] at h
    cases hp : placeLoop n t p b fuel (p.timeOf b) c ops with
    | none => rw [hp] at h; exact absurd h (by simp)
    | some res =>
      obtain ⟨c1, ops1⟩ := res
      rw [hp] at h
      dsimp only at h
      have hlen1 : n ≤ ops1.length := by
        rw [placeLoop_len n t p b fuel _ _ _ _ _ hp]; exact hlen
      obtain ⟨⟨rOut, h0, h1, heq⟩, hothers⟩ :=
        placeLoop_conserve n t p b hn fuel _ _ _ _ _
          (hpos p (List.mem_cons_self p rest)) hlen hp
      obtain ⟨ho, hq⟩ := ihp c1 ops1 out
        (fun q hqr => hpos q (List.mem_cons_of_mem p hqr)) hlen1 h
      constructor
      · intro m hm
        rw [ho m (fun q hqr => hm q (List.mem_cons_of_mem p hqr)),
          hothers m (Ne.symm (hm p (List.mem_cons_self p rest)))]
      · intro hnodup q hqmem
        rw [List.map_cons, List.nodup_cons] at hnodup
        obtain ⟨hpnotin, hrestnodup⟩ := hnodup
        have hrestne : ∀ q' ∈ rest, q'.no ≠ p.no := by
          intro q' hq' he
          exact hpnotin (he ▸ List.mem_map_of_mem (fun q => q.no) hq')
        rcases List.mem_cons.mp hqmem with hqp | hqrest
        · subst hqp
          refine ⟨rOut, h0, h1, ?_⟩
          rw [ho q.no hrestne, heq]
        · obtain ⟨rq, hq0, hq1, hqeq⟩ := hq hrestnodup q hqrest
          refine ⟨rq, hq0, hq1, ?_⟩
          rw [hqeq, hothers q.no (hrestne q hqrest)]

lemma fragmentsTotal_init (no : Int) (k : Nat) :
    fragmentsTotal no ((List.range k).map (fun i => (⟨i + 1, 0, []⟩ : Operator))) = 0 := by
  rw [fragmentsTotal, List.map_map]
  apply List.sum_eq_zero
  intro x hx
  rcases List.mem_map.mp hx with ⟨i, _, rfl⟩
  rfl

lemma placeLoop_skip (n : Nat) (t : ℚ) (p : Process) (b : TimeBasis)
    (f : Nat) (r : ℚ) (c : Nat) (ops : List Operator)
    (hr : ¬ eps < r) :
    placeLoop n t p b (f + 1) r c ops = some (c, ops) := by
  rw [placeLoop, if_neg hr]

lemma placeLoop_tasks (n : Nat) (t : ℚ) (p : Process) (b : TimeBasis) :
    ∀ (f : Nat) (r : ℚ) (c : Nat) (ops : List Operator) (c' : Nat) (ops' : List Operator),
      placeLoop n t p b f r c ops = some (c', ops') →
      ∀ o' ∈ ops', ∀ tk ∈ o'.tasks, (∃ o ∈ ops, tk ∈ o.tasks) ∨ tk.no = p.no := by
  intro f
  induction f with
  | zero => intro r c ops c' ops' h; exact absurd h (by simp [placeLoop])
  | succ f ih =>
    intro r c ops c' ops' h
    rw [placeLoop] at h
    dsimp only at h
    by_cases hcond : eps < r
    · rw [if_pos hcond] at h
      generalize hidx : (if n ≤ c then n - 1 else c) = idx at h
      split at h
      · exact ih _ _ _ _ _ h
      · rename_i hspace
        set old := ops.getD idx (⟨0, 0, []⟩ : Operator) with hold
        set take := r ⊓ (t - old.sec) with htake
        have hsetfact : ∀ o' ∈ ops.set idx
            { op := old.op, sec := old.sec + take,
              tasks := old.tasks ++
                [{ no := p.no,
                   desc := taskDesc p
                     (if 0 < p.timeOf b then take / p.timeOf b * 100 else 0),
                   time := take,
                   percentage :=
                     if 0 < p.timeOf b then take / p.timeOf b * 100 else 0 }] },
            ∀ tk ∈ o'.tasks, (∃ o ∈ ops, tk ∈ o.tasks) ∨ tk.no = p.no := by
          intro o' ho' tk htk
          rcases List.mem_or_eq_of_mem_set ho' with hmem | rfl
          · exact Or.inl ⟨o', hmem, htk⟩
          · rcases List.mem_append.mp htk with holdt | hnew
            · by_cases hidxlt : idx < ops.length
              · refine Or.inl ⟨old, ?_, holdt⟩
                rw [hold, List.getD_eq_getElem ops _ hidxlt]
                exact List.getElem_mem hidxlt
              · rw [hold, List.getD_eq_default ops _ (by omega)] at holdt
                exact absurd holdt (List.not_mem_nil tk)
            · simp only [List.mem_singleton] at hnew
              subst hnew
              exact Or.inr rfl
        split at h
        · intro o' ho' tk htk
          rcases ih _ _ _ _ _ h o' ho' tk htk with ⟨o, ho, hto⟩ | heq
          · exact hsetfact o ho tk hto
          · exact Or.inr heq
        · simp only [Option.some.injEq, Prod.mk.injEq] at h
          obtain ⟨h1, h2⟩ := h
          subst h2
          exact hsetfact
    · rw [if_neg hcond] at h
      simp only [Option.some.injEq, Prod.mk.injEq] at h
      obtain ⟨h1, h2⟩ := h
      subst h2
      exact fun o' ho' tk htk => Or.inl ⟨o', ho', htk⟩

lemma allocLoop_tasks (n : Nat) (t : ℚ) (b : TimeBasis) (fuel : Nat) :
    ∀ (procs : List Process) (c : Nat) (ops : List Operator) (out : List Operator),
      allocLoop n t b fuel procs c ops = some out →
      ∀ o' ∈ out, ∀ tk ∈ o'.tasks,
        (∃ o ∈ ops, tk ∈ o.tasks) ∨ ∃ q ∈ procs, tk.no = q.no ∧ eps < q.timeOf b := by
  intro procs
  induction procs with
  | nil =>
    intro c ops out h
    simp only [allocLoop, Option.some.injEq] at h
    subst h
    exact fun o' ho' tk htk => Or.inl ⟨o', ho', htk⟩
  | cons p rest ihp =>
    intro c ops out h
    rw [allocLoop] at h
    cases hp : placeLoop n t p b fuel (p.timeOf b) c ops with
    | none => rw [hp] at h; exact absurd h (by simp)
    | some res =>
      obtain ⟨c1, ops1⟩ := res
      rw [hp] at h
      dsimp only at h
      intro o' ho' tk htk
      rcases ihp c1 ops1 out h o' ho' tk htk with hops1 | ⟨q, hq, hqe, hqd⟩
      · by_cases hd : eps < p.timeOf b
        · obtain ⟨o, ho, hto⟩ := hops1
          rcases placeLoop_tasks n t p b fuel _ _ _ _ _ hp o ho tk hto with hori | hnop
          · obtain ⟨o0, ho0, ht0⟩ := hori
            exact Or.inl ⟨o0, ho0, ht0⟩
          · exact Or.inr ⟨p, List.mem_cons_self p rest, hnop, hd⟩
        · cases fuel with
          | zero => exact absurd hp (by simp [placeLoop])
          | succ f =>
            rw [placeLoop_skip n t p b f _ c ops hd] at hp
            simp only [Option.some.injEq, Prod.mk.injEq] at hp
            obtain ⟨hp1, hp2⟩ := hp
            subst hp2
            exact Or.inl hops1
      · exact Or.inr ⟨q, List.mem_cons_of_mem p hq, hqe, hqd⟩

lemma fragmentsTotal_eq_zero (m : Int) (ops : List Operator)
    (h : ∀ o ∈ ops, ∀ tk ∈ o.tasks, tk.no ≠ m) :
    fragmentsTotal m ops = 0 := by
  apply List.sum_eq_zero
  intro x hx
  rcases List.mem_map.mp hx with ⟨o, ho, rfl⟩
  rw [opFragFor, List.filter_eq_nil_iff.mpr ?_]
  · rfl
  · intro tk htk
    simp only [beq_iff_eq]
    exact h o ho tk htk

lemma placeLoop_stuck (n : Nat) (t : ℚ) (p : Process) (b : TimeBasis) :
    ∀ (f : Nat) (r : ℚ) (c : Nat) (ops : List Operator),
      eps < r → n ≤ c → t - (ops.getD (n - 1) ⟨0, 0, []⟩).sec ≤ eps →
      placeLoop n t p b f r c ops = none := by
  intro f
  induction f with
  | zero => intro r c ops _ _ _; rfl
  | succ f ih =>
    intro r c ops hr hc hs
    simp only [placeLoop, hr, if_true, hc, ite_true, hs]
    exact ih r (n - 1 + 1) ops hr (by omega) hs

lemma le_foldl_max : ∀ (xs : List ℚ) (x : ℚ), x ≤ xs.foldl max x := by
  intro xs
  induction xs with
  | nil => intro x; simp
  | cons h t ih =>
    intro x
    simp only [List.foldl_cons]
    exact le_trans (le_max_left x h) (ih (max x h))

lemma pymax_nonneg (l : List ℚ) (h : ∀ x ∈ l, 0 ≤ x) : 0 ≤ pymax l := by
  cases l with
  | nil => simp [pymax]
  | cons x xs =>
    rw [pymax]
    exact le_trans (h x (List.mem_cons_self x xs)) (le_foldl_max xs x)

lemma roundHE_nonneg (x : ℚ) (hx : 0 ≤ x) : 0 ≤ roundHE x := by
  rw [roundHE]
  have hf : (0 : Int) ≤ ⌊x⌋ := Int.floor_nonneg.mpr hx
  try dsimp only
  split
  · exact hf
  · split
    · omega
    · split <;> omega

lemma pyround_nonneg (d : Nat) (x : ℚ) (hx : 0 ≤ x) : 0 ≤ pyround d x := by
  rw [pyround]
  apply div_nonneg
  · exact_mod_cast roundHE_nonneg _ (by positivity)
  · positivity

lemma sectionResult_total (fuel : Nat) (procs : List Process) (numOps : Int)
    (mode : TimeBasis) (r : SectionResult)
    (h : sectionResult fuel procs numOps mode = some r) :
    r.total_time_used = pyround 2 ((procs.map (fun p => p.timeOf mode)).sum) := by
  rw [sectionResult] at h
  cases htb : true_thai_balancing fuel procs numOps mode with
  | none => rw [htb] at h; exact absurd h (by simp)
  | some bOps =>
    rw [htb] at h
    simp only [Option.some.injEq] at h
    subst h
    rfl

lemma buildResults_mem (fuel : Nat) (config : List (String × Int)) (mode : TimeBasis) :
    ∀ (sections : List (String × List Process)) (results : List (String × SectionResult)),
      buildResults fuel config mode sections = some results →
      ∀ r ∈ results, ∃ sec ∈ sections, r.1 = sec.1 ∧
        sectionResult fuel sec.2 (configGet config sec.1) mode = some r.2 := by
  intro sections
  induction sections with
  | nil =>
    intro results h r hr
    simp only [buildResults, Option.some.injEq] at h
    subst h
    exact absurd hr (List.not_mem_nil r)
  | cons sec rest ih =>
    intro results h r hr
    obtain ⟨nm, procs⟩ := sec
    rw [buildResults] at h
    cases hs : sectionResult fuel procs (configGet config nm) mode with
    | none => rw [hs] at h; exact absurd h (by simp)
    | some r0 =>
      rw [hs] at h
      cases hb : buildResults fuel config mode rest with
      | none => rw [hb] at h; exact absurd h (by simp)
      | some rs =>
        rw [hb] at h
        simp only [Option.some.injEq] at h
        subst h
        rcases List.mem_cons.mp hr with hhead | htail
        · subst hhead
          exact ⟨(nm, procs), List.mem_cons_self _ rest, rfl, hs⟩
        · obtain ⟨s, hsmem, h1, h2⟩ := ih rs hb r htail
          exact ⟨s, List.mem_cons_of_mem _ hsmem, h1, h2⟩

lemma cycleTimesOf_nonneg (fuel : Nat) (config : List (String × Int)) (mode : TimeBasis)
    (sections : List (String × List Process)) (selected : List String)
    (results : List (String × SectionResult))
    (hres : buildResults fuel config mode sections = some results)
    (hnn : ∀ sec ∈ sections, ∀ p ∈ sec.2, 0 ≤ p.timeOf mode) :
    ∀ x ∈ cycleTimesOf sections selected results, 0 ≤ x := by
  intro x hx
  rw [cycleTimesOf] at hx
  obtain ⟨nm, _, hfind⟩ := List.mem_filterMap.mp hx
  cases hf : results.find? (fun r => r.1 == nm) with
  | none => rw [hf, Option.map_none'] at hfind; exact Option.noConfusion hfind
  | some r =>
    rw [hf] at hfind
    simp only [Option.map_some, Option.map_some', Option.some.injEq] at hfind
    subst hfind
    split
    · rename_i hops
      obtain ⟨sec, hsec, _, hsr⟩ :=
        buildResults_mem fuel config mode sections results hres r (List.mem_of_find?_eq_some hf)
      rw [sectionResult_total _ _ _ _ _ hsr]
      apply div_nonneg
      · apply pyround_nonneg
        apply List.sum_nonneg
        intro t ht
        obtain ⟨p, hp, rfl⟩ := List.mem_map.mp ht
        exact hnn sec hsec p hp
      · exact_mod_cast Int.le_of_lt hops
    · exact le_refl 0

lemma tbWA : true_thai_balancing 1 [procA] 1 TimeBasis.smv = some opsWA := by
  simp only [true_thai_balancing, procA, allocLoop, placeLoop, opsWA]
  norm_num [eps, Process.timeOf, taskDesc, fmt0, roundHE, min_def, List.set, List.getD,
    List.range, List.range.loop, show (1:Int).toNat = 1 from rfl]
  decide

lemma tbWB : true_thai_balancing 1 [procB] 1 TimeBasis.smv = some opsWB := by
  simp only [true_thai_balancing, procB, allocLoop, placeLoop, opsWB]
  norm_num [eps, Process.timeOf, taskDesc, fmt0, roundHE, min_def, List.set, List.getD,
    List.range, List.range.loop, show (1:Int).toNat = 1 from rfl]
  decide

lemma secWA : sectionResult 1 [procA] 1 TimeBasis.smv = some rWA := by
  rw [sectionResult, tbWA]
  dsimp only
  simp only [Option.some.injEq]
  norm_num [opsWA, rWA, procA, pymax, pyround, roundHE, Process.timeOf]

lemma secWB : sectionResult 1 [procB] 1 TimeBasis.smv = some rWB := by
  rw [sectionResult, tbWB]
  dsimp only
  simp only [Option.some.injEq]
  norm_num [opsWB, rWB, procB, pymax, pyround, roundHE, Process.timeOf]

lemma buildResultsW : buildResults 1 [] TimeBasis.smv sectionsW = some resultsW := by
  simp only [buildResults, sectionsW, show configGet [] "A" = 1 from rfl,
    show configGet [] "B" = 1 from rfl, secWA, secWB, resultsW]

lemma hnnW : ∀ sec ∈ sectionsW, ∀ p ∈ sec.2, 0 ≤ p.timeOf TimeBasis.smv := by
  intro sec hsec p hp
  fin_cases hsec <;> simp_all [procA, procB, Process.timeOf, sectionsW]

lemma cycleTimesW : cycleTimesOf sectionsW [] resultsW = [45, 20] := by
  rw [cycleTimesOf]
  norm_num [sectionsW, resultsW, List.find?, List.filterMap, rWA, rWB,
    show ("A" == "A") = true from rfl, show ("A" == "B") = false from rfl,
    show ("B" == "B") = true from rfl, show ("B" == "A") = false from rfl]

lemma lineBalanceW : lineBalanceOf sectionsW [] resultsW = 3611/50 := by
  rw [lineBalanceOf, cycleTimesW]
  rw [if_neg (by simp : ¬([45, 20] : List ℚ) = [])]
  norm_num [pymax, max_def, pyround, roundHE]

lemma suggestionsWeval :
    suggestionsOf (3611/50) 45 [("A", (45:ℚ)), ("B", 20)]
      = ["🛑 Critical Bottleneck: 45s in A."] := by
  rw [suggestionsOf]
  rw [if_neg (by norm_num : ¬ (3611/50 : ℚ) < 60), if_neg (by norm_num : ¬ (90:ℚ) < 3611/50),
    if_pos (by norm_num : (0:ℚ) < 45)]
  dsimp only
  rw [show ([("A", (45:ℚ)), ("B", 20)].filter (fun r => r.2 == 45)) = [("A", (45:ℚ))] by
    simp only [List.filter, show ((45:ℚ) == 45) = true by rw [beq_iff_eq],
      show ((20:ℚ) == 45) = false by rw [beq_eq_false_iff_ne]; norm_num]]
  rw [show ([("A", (45:ℚ))].map fun r => r.1) = ["A"] from rfl]
  rw [show String.intercalate " & " ["A"] = "A" from rfl]
  rw [show (["A"].any containsAss) = false from rfl]
  rw [if_neg (by simp : ¬ false = true)]
  rw [show bottleneckMsg 45 "A" = "🛑 Critical Bottleneck: 45s in A." from rfl]
  simp

lemma tbW3 : true_thai_balancing 1 procsW3 1 TimeBasis.smv = some outW3 := by
  simp only [true_thai_balancing, procsW3, allocLoop, placeLoop, outW3]
  norm_num [eps, Process.timeOf, taskDesc, fmt0, roundHE, min_def, List.set, List.getD,
    List.range, List.range.loop, show (1:Int).toNat = 1 from rfl]
  decide

lemma tbW10 : true_thai_balancing 1 procsW10 1 TimeBasis.smv = some outW10 := by
  simp only [true_thai_balancing, procsW10, allocLoop, placeLoop, outW10]
  norm_num [eps, Process.timeOf, taskDesc, fmt0, roundHE, min_def, List.set, List.getD,
    List.range, List.range.loop, show (1:Int).toNat = 1 from rfl]
  decide

/-- C1: the claim that the allocator terminates for every finite list of
processes with non-negative durations is violated by the code.  On the
non-negative durations [9.999, 9.999, 10.002] with 3 operators
(target cycle time 10), after the first two operators are filled to
within the 0.001 tolerance and the last operator is filled exactly, the
leftover 0.002 makes the cursor bounce forever between the
clamp-to-last-operator step and the operator-full skip: the while loop
never exits, i.e. the run returns `none` for every fuel bound. -/
theorem c1_nontermination :
    ∀ fuel : Nat, true_thai_balancing fuel procsC1 3 TimeBasis.smv = none := by
  have hsimp : ∀ fuel : Nat, true_thai_balancing fuel procsC1 3 TimeBasis.smv
      = allocLoop 3 10 TimeBasis.smv fuel procsC1 0 initOps3 := by
    intro fuel
    simp only [true_thai_balancing, procsC1, initOps3]
    norm_num [Process.timeOf, List.range, List.range.loop, show (3:Int).toNat = 3 from rfl]
  intro fuel
  match fuel with
  | 0 =>
    rw [hsimp, procsC1]
    simp only [allocLoop, placeLoop]
  | 1 =>
    rw [hsimp, procsC1]
    simp only [allocLoop, placeLoop, Process.timeOf, initOps3]
    norm_num [eps, taskDesc, fmt0, roundHE, min_def, List.set, List.getD]
  | 2 =>
    rw [hsimp, procsC1]
    simp only [allocLoop, placeLoop, Process.timeOf, initOps3]
    norm_num [eps, taskDesc, fmt0, roundHE, min_def, List.set, List.getD]
  | (F + 1 + 1 + 1) =>
    have h1 : placeLoop 3 10 ⟨1, "a", "", "", 9999/1000, 0, ""⟩ TimeBasis.smv (F + 1 + 1 + 1)
        (9999/1000) 0 initOps3 = some (0, opsC1a) := by
      simp only [placeLoop, initOps3, opsC1a]
      norm_num [eps, Process.timeOf, taskDesc, fmt0, roundHE, min_def, List.set, List.getD]
      decide
    have h2 : placeLoop 3 10 ⟨2, "b", "", "", 9999/1000, 0, ""⟩ TimeBasis.smv (F + 1 + 1 + 1)
        (9999/1000) 0 opsC1a = some (1, opsC1b) := by
      simp only [placeLoop, opsC1a, opsC1b]
      norm_num [eps, Process.timeOf, taskDesc, fmt0, roundHE, min_def, List.set, List.getD]
      decide
    have h3 : placeLoop 3 10 ⟨3, "c", "", "", 10002/1000, 0, ""⟩ TimeBasis.smv (F + 1 + 1 + 1)
        (10002/1000) 1 opsC1b = none := by
      simp only [placeLoop, opsC1b]
      norm_num [eps, Process.timeOf, taskDesc, fmt0, roundHE, min_def, List.set, List.getD]
      apply placeLoop_stuck
      · norm_num [eps]
      · omega
      · norm_num [eps, List.getD]
    rw [hsimp, procsC1]
    simp only [allocLoop, Process.timeOf, h1, h2, h3]

/-- C2: the claimed overflow containment (excess work piling onto the
last operator, whose `sec` may exceed the target, with no error) never
happens: on an input where placement advances the cursor past the last
operator while work remains ([39.999, 39.999, 40.002] with 3 operators,
target 40), the clamped-to last operator has `space_left ≤ 0.001`, so
the code skips it, re-clamps, and loops forever instead of dumping the
excess; the allocator never returns for any fuel bound. -/
theorem c2_overflow_nontermination :
    ∀ fuel : Nat, true_thai_balancing fuel procsC2 3 TimeBasis.smv = none := by
  have hsimp : ∀ fuel : Nat, true_thai_balancing fuel procsC2 3 TimeBasis.smv
      = allocLoop 3 40 TimeBasis.smv fuel procsC2 0 initOps3 := by
    intro fuel
    simp only [true_thai_balancing, procsC2, initOps3]
    norm_num [Process.timeOf, List.range, List.range.loop, show (3:Int).toNat = 3 from rfl]
  intro fuel
  match fuel with
  | 0 =>
    rw [hsimp, procsC2]
    simp only [allocLoop, placeLoop]
  | 1 =>
    rw [hsimp, procsC2]
    simp only [allocLoop, placeLoop, Process.timeOf, initOps3]
    norm_num [eps, taskDesc, fmt0, roundHE, min_def, List.set, List.getD]
  | 2 =>
    rw [hsimp, procsC2]
    simp only [allocLoop, placeLoop, Process.timeOf, initOps3]
    norm_num [eps, taskDesc, fmt0, roundHE, min_def, List.set, List.getD]
  | (F + 1 + 1 + 1) =>
    have h1 : placeLoop 3 40 ⟨1, "cut", "", "", 39999/1000, 0, ""⟩ TimeBasis.smv (F + 1 + 1 + 1)
        (39999/1000) 0 initOps3 = some (0, opsC2a) := by
      simp only [placeLoop, initOps3, opsC2a]
      norm_num [eps, Process.timeOf, taskDesc, fmt0, roundHE, min_def, List.set, List.getD]
      decide
    have h2 : placeLoop 3 40 ⟨2, "sew", "", "", 39999/1000, 0, ""⟩ TimeBasis.smv (F + 1 + 1 + 1)
        (39999/1000) 0 opsC2a = some (1, opsC2b) := by
      simp only [placeLoop, opsC2a, opsC2b]
      norm_num [eps, Process.timeOf, taskDesc, fmt0, roundHE, min_def, List.set, List.getD]
      decide
    have h3 : placeLoop 3 40 ⟨3, "pack", "", "", 40002/1000, 0, ""⟩ TimeBasis.smv (F + 1 + 1 + 1)
        (40002/1000) 1 opsC2b = none := by
      simp only [placeLoop, opsC2b]
      norm_num [eps, Process.timeOf, taskDesc, fmt0, roundHE, min_def, List.set, List.getD]
      apply placeLoop_stuck
      · norm_num [eps]
      · omega
      · norm_num [eps, List.getD]
    rw [hsimp, procsC2]
    simp only [allocLoop, Process.timeOf, h1, h2, h3]

/-- C3: conservation.  For every terminating run of the allocator with a
positive operator count, non-negative durations and distinct process
numbers, the total time of the task fragments produced for a process
(summed across all operators) differs from the process's duration under
the selected basis by at most epsilon = 0.001. -/
theorem c3_conservation (fuel : Nat) (procs : List Process) (N : Int) (b : TimeBasis)
    (out : List Operator) (p : Process)
    (hpos : ∀ q ∈ procs, 0 ≤ q.timeOf b)
    (hnodup : (procs.map (fun q => q.no)).Nodup)
    (hp : p ∈ procs)
    (hN : 0 < N)
    (hrun : true_thai_balancing fuel procs N b = some out) :
    |fragmentsTotal p.no out - p.timeOf b| ≤ eps := by
  rw [true_thai_balancing, if_neg (by omega : ¬ N ≤ 0)] at hrun
  dsimp only at hrun
  have hn : 0 < N.toNat := by omega
  have hlen : N.toNat
      ≤ ((List.range N.toNat).map (fun i => (⟨i + 1, 0, []⟩ : Operator))).length := by
    simp
  obtain ⟨_, hq⟩ := allocLoop_conserve _ _ _ fuel hn procs 0 _ out hpos hlen hrun
  obtain ⟨rOut, h0, h1, heq⟩ := hq hnodup p hp
  rw [heq, fragmentsTotal_init]
  have he : 0 + p.timeOf b - rOut - p.timeOf b = -rOut := by ring
  rw [he, abs_neg, abs_of_nonneg h0]
  exact h1

/-- Witness for C3 at a concrete input: two processes of durations 2 and
3 balanced onto one operator. -/
theorem c3_conservation_witness :
    (∀ q ∈ procsW3, 0 ≤ q.timeOf TimeBasis.smv) ∧
    (procsW3.map (fun q => q.no)).Nodup ∧
    (⟨1, "a", "", "", 2, 0, ""⟩ : Process) ∈ procsW3 ∧
    (0 : Int) < 1 ∧
    true_thai_balancing 1 procsW3 1 TimeBasis.smv = some outW3 ∧
    |fragmentsTotal 1 outW3 - 2| ≤ eps := by
  have hpos : ∀ q ∈ procsW3, 0 ≤ q.timeOf TimeBasis.smv := by
    intro q hq
    simp only [procsW3] at hq
    rcases List.mem_cons.mp hq with rfl | hq2
    · norm_num [Process.timeOf]
    · rcases List.mem_cons.mp hq2 with rfl | hq3
      · norm_num [Process.timeOf]
      · exact absurd hq3 (List.not_mem_nil q)
  have hnodup : (procsW3.map (fun q => q.no)).Nodup := by
    rw [show procsW3.map (fun q => q.no) = [1, 2] from rfl]
    decide
  have hmem : (⟨1, "a", "", "", 2, 0, ""⟩ : Process) ∈ procsW3 :=
    List.mem_cons_self _ _
  refine ⟨hpos, hnodup, hmem, by norm_num, tbW3, ?_⟩
  have h := c3_conservation 1 procsW3 1 TimeBasis.smv outW3 _ hpos hnodup hmem
    (by norm_num) tbW3
  simpa [Process.timeOf] using h

/-- C4: the spec's concrete scenario.  Three processes with primary
durations [40, 30, 20] and 2 operators (target cycle time 45) yield:
operator 1 = all 40 of process 1 plus a 5-second fragment of process 2
(percentage 50/3 ≈ 16.7%), operator 2 = the remaining 25 of process 2
(percentage 250/3 ≈ 83.3%) plus all 20 of process 3; accumulated times
[45, 45].  Holds for every sufficient fuel bound. -/
theorem c4_scenario (F : Nat) :
    true_thai_balancing (F + 1 + 1) procsC4 2 TimeBasis.smv = some opsC4 := by
  have h0 : true_thai_balancing (F + 1 + 1) procsC4 2 TimeBasis.smv
      = allocLoop 2 45 TimeBasis.smv (F + 1 + 1) procsC4 0 initOps2 := by
    simp only [true_thai_balancing, procsC4, initOps2]
    norm_num [Process.timeOf, List.range, List.range.loop, show (2:Int).toNat = 2 from rfl]
  have h1 : placeLoop 2 45 ⟨1, "a", "", "", 40, 0, ""⟩ TimeBasis.smv (F + 1 + 1) 40 0 initOps2
      = some (0, opsC4a) := by
    simp only [placeLoop, initOps2, opsC4a]
    norm_num [eps, Process.timeOf, taskDesc, fmt0, roundHE, min_def, List.set, List.getD]
    decide
  have h2 : placeLoop 2 45 ⟨2, "b", "", "", 30, 0, ""⟩ TimeBasis.smv (F + 1 + 1) 30 0 opsC4a
      = some (1, opsC4b) := by
    simp only [placeLoop, opsC4a, opsC4b]
    norm_num [eps, Process.timeOf, taskDesc, fmt0, roundHE, min_def, List.set, List.getD]
    decide
  have h3 : placeLoop 2 45 ⟨3, "c", "", "", 20, 0, ""⟩ TimeBasis.smv (F + 1 + 1) 20 1 opsC4b
      = some (1, opsC4) := by
    simp only [placeLoop, opsC4b, opsC4]
    norm_num [eps, Process.timeOf, taskDesc, fmt0, roundHE, min_def, List.set, List.getD]
    decide
  rw [h0, procsC4]
  simp only [allocLoop, Process.timeOf, h1, h2, h3]

/-- C5: for `operator_count ≤ 0` the allocator returns an empty operator
sequence without error, and the section metrics computed from that empty
result degrade to zero: bottleneck 0, output rate 0, and both
efficiencies 0. -/
theorem c5_zero_operators (fuel : Nat) (procs : List Process) (mode : TimeBasis) (N : Int)
    (hN : N ≤ 0) :
    true_thai_balancing fuel procs N mode = some [] ∧
    sectionResult fuel procs N mode = some
      { total_time_used := pyround 2 ((procs.map (fun p => p.timeOf mode)).sum)
        operators := []
        section_bn := 0
        sec_output := 0
        sec_eff_smv := 0
        sec_eff_ct := 0
        num_ops := N } := by
  have htb : true_thai_balancing fuel procs N mode = some [] := by
    rw [true_thai_balancing, if_pos hN]
  refine ⟨htb, ?_⟩
  rw [sectionResult, htb]
  dsimp only
  norm_num [pymax]

/-- Witness for C5 at operator count 0 on a concrete process list. -/
theorem c5_zero_operators_witness :
    (0 : Int) ≤ 0 ∧
    true_thai_balancing 3 procsC9 0 TimeBasis.smv = some [] ∧
    sectionResult 3 procsC9 0 TimeBasis.smv = some
      { total_time_used := pyround 2 ((procsC9.map (fun p => p.timeOf TimeBasis.smv)).sum)
        operators := []
        section_bn := 0
        sec_output := 0
        sec_eff_smv := 0
        sec_eff_ct := 0
        num_ops := 0 } := by
  have h := c5_zero_operators 3 procsC9 TimeBasis.smv 0 (le_refl 0)
  exact ⟨le_refl 0, h.1, h.2⟩

/-- C6: the line-balance percentage over the caller-selected sections
(all sections when the selection is empty) equals
`round(sum(cycle_times) * 100 / (max(cycle_times) * count), 2)` where
each selected section contributes `cycle_time = total_time_used /
operator_count`, and is 0 when no cycle times are gathered or their
maximum is 0 (assuming non-negative durations). -/
theorem c6_line_balance (fuel : Nat) (sections : List (String × List Process))
    (config : List (String × Int)) (mode : TimeBasis) (selected : List String)
    (results : List (String × SectionResult))
    (hres : buildResults fuel config mode sections = some results)
    (hnn : ∀ sec ∈ sections, ∀ p ∈ sec.2, 0 ≤ p.timeOf mode) :
    lineBalanceEff fuel sections config mode selected
      = some (spec_lineBalance (cycleTimesOf sections selected results)) := by
  rw [lineBalanceEff, hres]
  have hctsnn := cycleTimesOf_nonneg fuel config mode sections selected results hres hnn
  unfold lineBalanceOf spec_lineBalance
  try dsimp only
  by_cases hempty : cycleTimesOf sections selected results = []
  · rw [if_pos hempty, if_pos hempty]
  · rw [if_neg hempty, if_neg hempty]
    try dsimp only
    by_cases hmax : pymax (cycleTimesOf sections selected results) = 0
    · rw [if_pos hmax, hmax, zero_mul]
      simp
    · rw [if_neg hmax]
      have hpos : 0 < pymax (cycleTimesOf sections selected results) :=
        lt_of_le_of_ne (pymax_nonneg _ hctsnn) (Ne.symm hmax)
      have hlen : 0 < ((cycleTimesOf sections selected results).length : ℚ) := by
        have : (cycleTimesOf sections selected results).length ≠ 0 :=
          fun hl => hempty (List.eq_nil_of_length_eq_zero hl)
        exact_mod_cast Nat.pos_of_ne_zero this
      rw [if_pos (mul_pos hpos hlen)]

/-- Witness for C6 on a concrete two-section request. -/
theorem c6_line_balance_witness :
    buildResults 1 [] TimeBasis.smv sectionsW = some resultsW ∧
    (∀ sec ∈ sectionsW, ∀ p ∈ sec.2, 0 ≤ p.timeOf TimeBasis.smv) ∧
    lineBalanceEff 1 sectionsW [] TimeBasis.smv []
      = some (spec_lineBalance (cycleTimesOf sectionsW [] resultsW)) :=
  ⟨buildResultsW, hnnW,
    c6_line_balance 1 sectionsW [] TimeBasis.smv [] resultsW buildResultsW hnnW⟩

/-- C7: each section's efficiency under each of the two bases equals
`round(total_time_under_that_basis * 100 / (section_bottleneck *
operator_count), 1)` (0 when the denominator is not positive), where the
single `section_bottleneck` in both denominators is the maximum operator
time of the allocation produced under the selected basis. -/
theorem c7_efficiency (fuel : Nat) (procs : List Process) (numOps : Int) (mode : TimeBasis)
    (r : SectionResult)
    (h : sectionResult fuel procs numOps mode = some r) :
    ∃ balancedOps, true_thai_balancing fuel procs numOps mode = some balancedOps ∧
      r.section_bn = pymax (balancedOps.map (fun o => o.sec)) ∧
      r.sec_eff_smv = spec_efficiency ((procs.map (fun p => p.smv)).sum) r.section_bn numOps ∧
      r.sec_eff_ct = spec_efficiency ((procs.map (fun p => p.ct)).sum) r.section_bn numOps := by
  rw [sectionResult] at h
  cases htb : true_thai_balancing fuel procs numOps mode with
  | none => rw [htb] at h; exact absurd h (by simp)
  | some bOps =>
    rw [htb] at h
    dsimp only at h
    simp only [Option.some.injEq] at h
    subst h
    exact ⟨bOps, rfl, rfl, rfl, rfl⟩

/-- Witness for C7 on a concrete one-process section. -/
theorem c7_efficiency_witness :
    sectionResult 1 [procA] 1 TimeBasis.smv = some rWA ∧
    ∃ balancedOps, true_thai_balancing 1 [procA] 1 TimeBasis.smv = some balancedOps ∧
      rWA.section_bn = pymax (balancedOps.map (fun o => o.sec)) ∧
      rWA.sec_eff_smv = spec_efficiency (([procA].map (fun p => p.smv)).sum) rWA.section_bn 1 ∧
      rWA.sec_eff_ct = spec_efficiency (([procA].map (fun p => p.ct)).sum) rWA.section_bn 1 :=
  ⟨secWA, c7_efficiency 1 [procA] 1 TimeBasis.smv rWA secWA⟩

/-- C8 counterexample: a two-section request whose global bottleneck is
45 and whose fastest operator carries 20 (gap 25 > 20 seconds), yet the
complete generated suggestion list is exactly the single critical-
bottleneck note — no workload-spread warning exists anywhere in the
code's output. -/
theorem c8_counterexample :
    buildResults 1 [] TimeBasis.smv sectionsW = some resultsW ∧
    allOperatorSecs resultsW = [45, 20] ∧
    (45 : ℚ) - 20 > 20 ∧
    globalSuggestions 1 sectionsW [] TimeBasis.smv []
      = some ["🛑 Critical Bottleneck: 45s in A."] := by
  refine ⟨buildResultsW, by norm_num [allOperatorSecs, resultsW, rWA, rWB, opsWA, opsWB],
    by norm_num, ?_⟩
  rw [globalSuggestions, buildResultsW]
  dsimp only
  rw [show (allOperatorSecs resultsW).filter (fun s => decide (0 < s)) = [45, 20] by
    norm_num [allOperatorSecs, resultsW, rWA, rWB, opsWA, opsWB, List.filter]]
  rw [show pymax [(45:ℚ), 20] = 45 by norm_num [pymax, max_def]]
  rw [lineBalanceW, suggestionsOf]
  rw [if_neg (by norm_num : ¬ (3611/50 : ℚ) < 60), if_neg (by norm_num : ¬ (90:ℚ) < 3611/50),
    if_pos (by norm_num : (0:ℚ) < 45)]
  dsimp only
  rw [show (resultsW.map fun r => (r.1, r.2.section_bn)) = [("A", (45:ℚ)), ("B", 20)] from rfl]
  rw [show ([("A", (45:ℚ)), ("B", 20)].filter (fun r => r.2 == 45)) = [("A", (45:ℚ))] by
    simp only [List.filter, show ((45:ℚ) == 45) = true by rw [beq_iff_eq],
      show ((20:ℚ) == 45) = false by rw [beq_eq_false_iff_ne]; norm_num]]
  rw [show ([("A", (45:ℚ))].map fun r => r.1) = ["A"] from rfl]
  rw [show String.intercalate " & " ["A"] = "A" from rfl]
  rw [show (["A"].any containsAss) = false from rfl]
  rw [if_neg (by simp : ¬ false = true)]
  rw [show bottleneckMsg 45 "A" = "🛑 Critical Bottleneck: 45s in A." from rfl]
  simp

/-- C8 (amended): the suggestion block never produces a workload-spread
warning; every generated suggestion is one of exactly four strings: the
low-balance warning, the excellent-balance note, the critical-bottleneck
note, or the assembly action hint.  The gap between the bottleneck and
the fastest operator plays no role. -/
theorem c8_suggestion_kinds (lb bn : ℚ) (results : List (String × ℚ)) (s : String)
    (hs : s ∈ suggestionsOf lb bn results) :
    s = lowBalanceMsg lb ∨ s = excellentMsg lb ∨
      (∃ loc, s = bottleneckMsg bn loc) ∨ s = assemblyMsg := by
  rw [suggestionsOf] at hs
  rcases List.mem_append.mp hs with h | h
  · split at h
    · simp only [List.mem_singleton] at h
      exact Or.inl h
    · split at h
      · simp only [List.mem_singleton] at h
        exact Or.inr (Or.inl h)
      · exact absurd h (List.not_mem_nil s)
  · split at h
    · dsimp only at h
      rcases List.mem_append.mp h with h1 | h2
      · simp only [List.mem_singleton] at h1
        exact Or.inr (Or.inr (Or.inl ⟨_, h1⟩))
      · split at h2
        · simp only [List.mem_singleton] at h2
          exact Or.inr (Or.inr (Or.inr h2))
        · exact absurd h2 (List.not_mem_nil s)
    · exact absurd h (List.not_mem_nil s)

/-- Witness for the amended C8 at a concrete suggestion list. -/
theorem c8_suggestion_kinds_witness :
    "🛑 Critical Bottleneck: 45s in A." ∈ suggestionsOf (3611/50) 45 [("A", 45), ("B", 20)] ∧
    ("🛑 Critical Bottleneck: 45s in A." = lowBalanceMsg (3611/50) ∨
     "🛑 Critical Bottleneck: 45s in A." = excellentMsg (3611/50) ∨
     (∃ loc, "🛑 Critical Bottleneck: 45s in A." = bottleneckMsg 45 loc) ∨
     "🛑 Critical Bottleneck: 45s in A." = assemblyMsg) := by
  have hmem : "🛑 Critical Bottleneck: 45s in A."
      ∈ suggestionsOf (3611/50) 45 [("A", (45:ℚ)), ("B", 20)] := by
    rw [suggestionsWeval]
    exact List.mem_singleton_self _
  exact ⟨hmem, c8_suggestion_kinds (3611/50) 45 [("A", 45), ("B", 20)] _ hmem⟩

/-- C9 counterexample: with a configured operator count of 0 for section
"A", the effective count used is 0, not 1 — the allocation is the empty
operator list, while an allocation with operator count 1 is a non-empty
one-operator list. -/
theorem c9_counterexample :
    configGet [("A", 0)] "A" = 0 ∧
    true_thai_balancing 2 procsC9 (configGet [("A", 0)] "A") TimeBasis.smv = some [] ∧
    true_thai_balancing 2 procsC9 1 TimeBasis.smv
      = some [⟨1, 40, [⟨1, "No.1: a", 40, 100⟩]⟩] ∧
    (some [] : Option (List Operator)) ≠ some [⟨1, 40, [⟨1, "No.1: a", 40, 100⟩]⟩] := by
  refine ⟨rfl, ?_, ?_, by simp⟩
  · rw [show configGet [("A", 0)] "A" = 0 from rfl, true_thai_balancing, if_pos (le_refl 0)]
  · simp only [true_thai_balancing, procsC9, allocLoop, placeLoop]
    norm_num [eps, Process.timeOf, taskDesc, fmt0, roundHE, min_def, List.set, List.getD,
      List.range, List.range.loop, show (1:Int).toNat = 1 from rfl]
    decide

/-- C9 (amended): a section name absent from the configuration defaults
to operator count 1, but a present non-positive count is used as-is and
makes the allocator produce no operators (it is not clamped to 1). -/
theorem c9_operator_count (config : List (String × Int)) (name : String) (fuel : Nat)
    (procs : List Process) (b : TimeBasis) (n : Int) :
    (config.find? (fun kv => kv.1 == name) = none → configGet config name = 1) ∧
    (n ≤ 0 → true_thai_balancing fuel procs n b = some []) := by
  constructor
  · intro h; rw [configGet, h]
  · intro h; rw [true_thai_balancing, if_pos h]

/-- Witness for the amended C9: an absent key defaults to 1, and a
negative count yields the empty allocation. -/
theorem c9_operator_count_witness :
    ([("B", 2)] : List (String × Int)).find? (fun kv => kv.1 == "A") = none ∧
    configGet [("B", 2)] "A" = 1 ∧
    true_thai_balancing 3 procsC9 (-2) TimeBasis.smv = some [] := by
  have h := c9_operator_count [("B", 2)] "A" 3 procsC9 TimeBasis.smv (-2)
  exact ⟨rfl, h.1 rfl, h.2 (by norm_num)⟩

/-- C10: a process whose duration under the selected basis is positive
but at most epsilon = 0.001 is silently dropped: no task fragment
carries its process number, and it contributes nothing to any
operator's accumulated time (process numbers assumed distinct). -/
theorem c10_tiny_dropped (fuel : Nat) (procs : List Process) (N : Int) (b : TimeBasis)
    (out : List Operator) (p : Process)
    (hnodup : (procs.map (fun q => q.no)).Nodup)
    (hp : p ∈ procs)
    (hd0 : 0 < p.timeOf b)
    (hde : p.timeOf b ≤ eps)
    (hrun : true_thai_balancing fuel procs N b = some out) :
    (∀ o ∈ out, ∀ tk ∈ o.tasks, tk.no ≠ p.no) ∧ fragmentsTotal p.no out = 0 := by
  have hmain : ∀ o ∈ out, ∀ tk ∈ o.tasks, tk.no ≠ p.no := by
    by_cases hN : N ≤ 0
    · rw [true_thai_balancing, if_pos hN] at hrun
      simp only [Option.some.injEq] at hrun
      subst hrun
      intro o ho
      exact absurd ho (List.not_mem_nil o)
    · rw [true_thai_balancing, if_neg hN] at hrun
      dsimp only at hrun
      intro o ho tk htk he
      rcases allocLoop_tasks _ _ b fuel procs 0 _ out hrun o ho tk htk with
        ⟨o0, ho0, ht0⟩ | ⟨q, hq, hqe, hqd⟩
      · rcases List.mem_map.mp ho0 with ⟨i, _, rfl⟩
        exact absurd ht0 (List.not_mem_nil tk)
      · have hqp : q = p := by
          apply List.inj_on_of_nodup_map hnodup hq hp
          rw [← hqe, he]
        subst hqp
        exact absurd hde (not_le.mpr hqd)
  exact ⟨hmain, fragmentsTotal_eq_zero p.no out hmain⟩

/-- Witness for C10: a 0.0005-second process contributes no fragment. -/
theorem c10_tiny_dropped_witness :
    (procsW10.map (fun q => q.no)).Nodup ∧
    (⟨1, "t", "", "", 1/2000, 0, ""⟩ : Process) ∈ procsW10 ∧
    (0 : ℚ) < 1/2000 ∧ (1/2000 : ℚ) ≤ eps ∧
    true_thai_balancing 1 procsW10 1 TimeBasis.smv = some outW10 ∧
    ((∀ o ∈ outW10, ∀ tk ∈ o.tasks, tk.no ≠ 1) ∧ fragmentsTotal 1 outW10 = 0) := by
  have hnodup : (procsW10.map (fun q => q.no)).Nodup := by
    rw [show procsW10.map (fun q => q.no) = [1, 2] from rfl]
    decide
  have hmem : (⟨1, "t", "", "", 1/2000, 0, ""⟩ : Process) ∈ procsW10 :=
    List.mem_cons_self _ _
  refine ⟨hnodup, hmem, by norm_num, by norm_num [eps], tbW10, ?_⟩
  have h := c10_tiny_dropped 1 procsW10 1 TimeBasis.smv outW10 _ hnodup hmem
    (by norm_num [Process.timeOf]) (by norm_num [Process.timeOf, eps]) tbW10
  simpa using h

end Garment
